import Mathlib

/-!
Verification of the distributed learning-pipeline layer of the
GeoscienceAustralia geo-wavelets (uncoverml) repository.

The development shallowly embeds the Python sources

  * uncoverml/scripts/learningpipeline.py  (extract, gather_data,
    rank_features, export_feature_ranks, export_model, run_pipeline)
  * uncoverml/scripts/uncoverml.py         (predict command)
  * uncoverml/krige/krige.py               (Krige wrapper)

into Lean.  Matrices are lists of rows over ℚ; Python dicts keyed by
strings are association lists with insert-or-overwrite update; Python's
stable `sorted` is modelled by `List.insertionSort`; `sys.exit` and
raised exceptions are `Except` values.  Collaborator modules that are
not part of the three sources above (pipeline.compose_features,
pipeline.cross_validate, mpiops, scipy, pykrige) enter either as
explicit function parameters or as definitions marked
"Modelled from the spec:".
-/

/-! ## Python string primitives -/

/-- Lexicographic comparison of character lists by code point, exactly the
order Python uses to compare strings. -/
def lexLe : List Char → List Char → Bool
  | [], _ => true
  | _ :: _, [] => false
  | a :: as, b :: bs =>
    if a.toNat < b.toNat then true
    else if b.toNat < a.toNat then false
    else lexLe as bs

/-- Python string `<=`: code-point lexicographic order. -/
def pyStrLe (a b : String) : Bool := lexLe a.data b.data

/-- Python's `str.rstrip(chars)`: drop from the right every character that
belongs to the character set `chars` (it does NOT remove the suffix
`chars` as a whole). -/
def pyRstrip (s : String) (chars : String) : String :=
  String.mk ((s.data.reverse.dropWhile (fun c => chars.data.contains c)).reverse)

/-- Python's `os.path.basename`: the part of the path after the last slash. -/
def basename (p : String) : String :=
  String.mk ((p.data.reverse.takeWhile (fun c => c ≠ '/')).reverse)

/-! ## Data model -/

/-- A (masked) numpy 2-d array: a list of rows.  Row count is `length`. -/
abbrev Mat : Type := List (List ℚ)

/-- Feature-composition settings (datatypes.ComposeSettings).  The class
itself is not under the analysed sources; only the facts the pipeline
relies on are kept.  Modelled from the spec: `pipeline.compose_features`
applies imputation, column-wise transforms and an optional projection —
once the shared state is fixed these act on each row independently, so
they are carried as one row-wise function. -/
structure ComposeSettings where
  rowTransform : List ℚ → List ℚ

/-- Column-wise concatenation, `np.ma.concatenate(values, axis=1)`:
rows are zipped and their bands appended. -/
def hconcat : List Mat → Mat
  | [] => []
  | m :: ms => ms.foldl (fun acc n => List.zipWith (fun r s => r ++ s) acc n) m

/-- Modelled from the spec: `pipeline.compose_features` (module
`uncoverml.pipeline` is not under the analysed sources).  An absent
input stays absent; a present matrix is transformed row by row, so its
row count is preserved.  The (possibly updated) settings are returned
alongside, as in the source. -/
def compose_features (x : Option Mat) (settings : ComposeSettings) :
    Option Mat × ComposeSettings :=
  match x with
  | none => (none, settings)
  | some m => (some (m.map settings.rowTransform), settings)

/-- Per-worker body of learningpipeline.gather_data (lines 148–153):
`has_data = not (True in [k is None for k in extracted_chunks.values()])`;
if every source chunk is present the chunks are concatenated column-wise,
otherwise the local matrix is `None`; the result is passed through
`pipeline.compose_features`. -/
def gather_local (extracted_chunks : List (String × Option Mat))
    (compose_settings : ComposeSettings) : Option Mat :=
  let has_data := !((extracted_chunks.map (fun p => p.2.isNone)).contains true)
  let x : Option Mat :=
    if has_data then some (hconcat (extracted_chunks.filterMap Prod.snd)) else none
  (compose_features x compose_settings).1

/-- learningpipeline.gather_data (lines 147–157) over the whole worker
group.  Modelled from the spec: `mpiops.comm.allgather` hands every
worker the rank-ordered list of all workers' local values, so the SPMD
call is embedded as a function of that list; `np.ma.vstack` of the
non-None gathered blocks is row concatenation. -/
def gather_data (workers : List (List (String × Option Mat)))
    (compose_settings : ComposeSettings) : Mat :=
  let X_list := workers.map (fun w => gather_local w compose_settings)
  (X_list.filterMap id).flatten

/-! ## extract and run_pipeline (learningpipeline.py) -/

/-- Per-image extraction settings (datatypes.ExtractSettings), kept
abstract up to the fields the pipeline constructs them from. -/
structure ExtractSettings where
  onehot : Bool
  patchsize : Int
deriving DecidableEq

/-- Errors the pipeline layer can surface.  `exitCode` stands for
`sys.exit(code)`; the other two name the data-integrity exceptions in
the spec's taxonomy. -/
inductive PipeError where
  | exitCode : Int → PipeError
  | shapeMismatch : PipeError
  | emptyDataset : PipeError
deriving DecidableEq

/-- learningpipeline.extract (lines 40–61).  `tifs` is the glob result
for `*.tif` in the data directory; `extractF` stands for the collaborator
call `pipeline.extract_features(RasterioImageSource(tif), targets, s)`
(module not under the analysed sources), keyed here by the tif path.
If no geotiff is found the process exits with status -1; otherwise every
tif is extracted under its basename and the chunk dict is rebuilt as an
OrderedDict sorted ascending by name. -/
def extract (tifs : List String)
    (extractF : String → Option Mat × ExtractSettings) :
    Except PipeError (List (String × Option Mat) × List (String × ExtractSettings)) :=
  if tifs.length = 0 then Except.error (PipeError.exitCode (-1))
  else
    let pairs := tifs.map (fun t => (basename t, extractF t))
    let extracted_chunks := pairs.map (fun p => (p.1, p.2.1))
    let settings := pairs.map (fun p => (p.1, p.2.2))
    Except.ok
      (List.insertionSort (fun a b => pyStrLe a.1 b.1 = true) extracted_chunks, settings)

/-- Iteration order of `for algorithm in sorted(config.algdict.keys())`
in run_pipeline (lines 91 and 104). -/
def run_pipeline_algorithm_order (algdict_keys : List String) : List String :=
  List.insertionSort (fun a b => pyStrLe a b = true) algdict_keys

/-- Control-flow skeleton of run_pipeline up to the global gather
(lines 79 and 102), for one worker's data: extraction happens first and
its `sys.exit` aborts the run; only on success is `gather_data` (and with
it the all-gather collective) reached.  The boolean records whether the
gather stage ran. -/
def run_pipeline_gather (tifs : List String)
    (extractF : String → Option Mat × ExtractSettings)
    (compose_settings : ComposeSettings) : Except PipeError Mat × Bool :=
  match extract tifs extractF with
  | Except.error e => (Except.error e, false)
  | Except.ok (chunks, _) => (Except.ok (gather_data [chunks] compose_settings), true)

/-! ## rank_features and export_feature_ranks -/

/-- Python dict assignment `d[k] = v`: overwrite in place if the key is
present, else append at the end (insertion order preserved). -/
def dictInsert {β : Type} (d : List (String × β)) (k : String) (v : β) :
    List (String × β) :=
  if d.any (fun p => p.1 == k) then d.map (fun p => if p.1 == k then (k, v) else p)
  else d ++ [(k, v)]

/-- Result of `pipeline.cross_validate`: scores keyed by metric name. -/
structure CrossvalResult where
  scores : List (String × ℚ)
deriving DecidableEq

/-- learningpipeline.rank_features (lines 117–144) for one worker's
chunks.  `cross_validate` stands for the collaborator call
`pipeline.cross_validate(X, targets, algorithm, args)` (module not under
the analysed sources).  For each source name the chunk dict minus that
source is gathered and cross-validated; the result is stored under
`name.rstrip(".tif")`; finally the metric list is read off the first
stored result, features are sorted by (stripped) name, and the score
matrix is filled by dict lookups. -/
def rank_features (cross_validate : Mat → CrossvalResult)
    (extracted_chunks : List (String × Option Mat))
    (compose_settings : ComposeSettings) :
    List String × List String × List (List (Option ℚ)) :=
  let feature_scores : List (String × CrossvalResult) :=
    extracted_chunks.foldl (fun acc p =>
      let dict_missing := extracted_chunks.filter (fun q => !(q.1 == p.1))
      let fname := pyRstrip p.1 ".tif"
      let X := gather_data [dict_missing] compose_settings
      dictInsert acc fname (cross_validate X)) []
  let measures : List String :=
    match feature_scores with
    | [] => []
    | r :: _ => r.2.scores.map Prod.fst
  let features :=
    List.insertionSort (fun a b => pyStrLe a b = true) (feature_scores.map Prod.fst)
  let scores :=
    measures.map (fun m =>
      features.map (fun f =>
        (feature_scores.lookup f).bind (fun r => r.scores.lookup m)))
  (measures, features, scores)

/-- One metric row of learningpipeline.export_feature_ranks (lines
166–176): `sorted(zip(features, measure_scores), key=lambda s: s[1])`,
Python's stable ascending sort by score. -/
def sortedScorePairs (features : List String) (measure_scores : List ℚ) :
    List (String × ℚ) :=
  List.insertionSort (fun a b : String × ℚ => a.2 ≤ b.2) (features.zip measure_scores)

/-- learningpipeline.export_feature_ranks (lines 160–184), up to the
JSON serialisation: builds `score_listing['scores']` and
`score_listing['ranks']`, each keyed by metric, from the per-metric
ascending sort.  The commented-out lower-is-better reversal is absent,
so every metric goes through the same ascending sort. -/
def export_feature_ranks (measures : List String) (features : List String)
    (scores : List (List ℚ)) :
    List (String × List ℚ) × List (String × List String) :=
  (measures.zip scores).foldl (fun acc p =>
    let sorted_pairs := sortedScorePairs features p.2
    (dictInsert acc.1 p.1 (sorted_pairs.map Prod.snd),
     dictInsert acc.2 p.1 (sorted_pairs.map Prod.fst))) ([], [])

/-! ## export_model and the predict command's bundle -/

/-- Values stored in the pickled state dict of
learningpipeline.export_model. -/
inductive BundleVal (M : Type) where
  | model : M → BundleVal M
  | imageSettings : List (String × ExtractSettings) → BundleVal M
  | composeSettings : ComposeSettings → BundleVal M

/-- learningpipeline.export_model (lines 187–195): the pickled
`state_dict` literal, as an ordered key/value list. -/
def export_model {M : Type} (model : M)
    (image_settings : List (String × ExtractSettings))
    (compose_settings : ComposeSettings) : List (String × BundleVal M) :=
  [("model", BundleVal.model model),
   ("image_settings", BundleVal.imageSettings image_settings),
   ("compose_settings", BundleVal.composeSettings compose_settings)]

/-- Keys the predict command of scripts/uncoverml.py reads from the
unpickled bundle (lines 207–208): `state_dict["model"]` and
`state_dict["config"]`. -/
def predict_loaded_keys : List String := ["model", "config"]

/-- What the predict command loads from a bundle: the lookups of the two
keys it subscripts. -/
def predict_load {M : Type} (state_dict : List (String × BundleVal M)) :
    Option (BundleVal M) × Option (BundleVal M) :=
  (state_dict.lookup "model", state_dict.lookup "config")

/-! ## Krige wrapper (krige/krige.py) -/

/-- The two pykrige backends named in the fixed registry. -/
inductive KrigeMethod where
  | ordinaryKriging
  | universalKriging
deriving DecidableEq

/-- krige.krige_methods (lines 16–17): the fixed registry mapping method
name to backend class. -/
def krige_methods : List (String × KrigeMethod) :=
  [("ordinary", KrigeMethod.ordinaryKriging), ("universal", KrigeMethod.universalKriging)]

/-- An unfitted Krige wrapper: `Krige.__init__` stores the method name
(plus args/kwargs, irrelevant here) and sets `self.model = None`. -/
structure Krige where
  method : String

/-- Krige.__init__ (lines 22–29): raises ConfigException when the method
is not a key of the registry, otherwise constructs the wrapper. -/
def Krige.init (method : String) : Except String Krige :=
  if (krige_methods.map Prod.fst).contains method then Except.ok ⟨method⟩
  else Except.error "Kirging method must be one of the krige_methods keys"

/-- A fitted pykrige backend (external collaborator): `execute` maps the
query x- and y-coordinate arrays to (prediction, variance) arrays. -/
structure KrigeModel where
  execute : List ℚ → List ℚ → List ℚ × List ℚ

/-- Krige.fit (lines 31–44): look the method up in the registry and build
the backend model from the training data; `mkBackend` stands for the
pykrige class constructors.  A missing registry key would surface here as
`none` (a KeyError); construction-time checking rules that out. -/
def Krige.fit (mkBackend : KrigeMethod → List (ℚ × ℚ) → List ℚ → KrigeModel)
    (k : Krige) (x : List (ℚ × ℚ)) (y : List ℚ) : Option KrigeModel :=
  (krige_methods.lookup k.method).map (fun b => mkBackend b x y)

/-- scipy.stats.norm.interval (external collaborator), elementwise over
the loc/scale arrays: the two-sided interval whose endpoints are the
normal quantiles at (1-α)/2 and (1+α)/2, i.e. loc + scale·ppf(q);
`ppf` stands for the standard normal quantile function. -/
def norm_interval (ppf : ℚ → ℚ) (alpha : ℚ) (loc scale : List ℚ) :
    List ℚ × List ℚ :=
  (List.zipWith (fun l s => l + s * ppf ((1 - alpha) / 2)) loc scale,
   List.zipWith (fun l s => l + s * ppf ((1 + alpha) / 2)) loc scale)

/-- Krige.predict_proba (lines 46–54): run the fitted backend on the
points, then `ql, qu = norm.interval(interval, loc=prediction,
scale=np.sqrt(variance))`; `sqrtF` stands for `np.sqrt`. -/
def Krige.predict_proba (ppf sqrtF : ℚ → ℚ) (m : KrigeModel)
    (x : List (ℚ × ℚ)) (interval : ℚ) : List ℚ × List ℚ × List ℚ × List ℚ :=
  let pv := m.execute (x.map Prod.fst) (x.map Prod.snd)
  let q := norm_interval ppf interval pv.1 (pv.2.map sqrtF)
  (pv.1, pv.2, q.1, q.2)

/-- Krige.predict (lines 56–57): `self.predict_proba(x, interval=interval)[0]`. -/
def Krige.predict (ppf sqrtF : ℚ → ℚ) (m : KrigeModel)
    (x : List (ℚ × ℚ)) (interval : ℚ) : List ℚ :=
  (Krige.predict_proba ppf sqrtF m x interval).1

/-! ## The predict command's partition loop (scripts/uncoverml.py) -/

/-- Observable events of the predict command after the model is loaded:
rendering of one partition, and the final completion report. -/
inductive PredictEvent where
  | render : Nat → PredictEvent
  | finished : PredictEvent
deriving DecidableEq

/-- Event trace of the loop in the predict command (lines 223–226):
`for i in range(config.n_subchunks): render_partition(model, i, ...)`
followed by `log.info("Finished!")`. -/
def predict_events (n_subchunks : Nat) : List PredictEvent :=
  ((List.range n_subchunks).map PredictEvent.render) ++ [PredictEvent.finished]

/-! ## Helper lemmas -/

theorem lexLe_total : ∀ as bs : List Char, lexLe as bs = true ∨ lexLe bs as = true := by
  intro as
  induction as with
  | nil => intro bs; left; rfl
  | cons a as ih =>
    intro bs
    cases bs with
    | nil => right; rfl
    | cons b bs =>
      simp only [lexLe]
      rcases Nat.lt_trichotomy a.toNat b.toNat with h | h | h
      · left; simp [h]
      · have h1 : ¬ a.toNat < b.toNat := by omega
        have h2 : ¬ b.toNat < a.toNat := by omega
        rcases ih bs with h3 | h3
        · left; simp [h1, h2, h3]
        · right; simp [h1, h2, h3]
      · right; simp [h]

theorem lexLe_trans :
    ∀ as bs cs : List Char, lexLe as bs = true → lexLe bs cs = true → lexLe as cs = true := by
  intro as
  induction as with
  | nil => intro bs cs _ _; rfl
  | cons a as ih =>
    intro bs cs hab hbc
    cases bs with
    | nil => simp [lexLe] at hab
    | cons b bs =>
      cases cs with
      | nil => simp [lexLe] at hbc
      | cons c cs =>
        simp only [lexLe] at hab hbc ⊢
        by_cases h1 : a.toNat < b.toNat
        · by_cases h2 : b.toNat < c.toNat
          · simp only [h1, h2, if_true, ite_true] at hab hbc ⊢
            simp [show a.toNat < c.toNat by omega]
          · simp [h1, h2] at hab hbc ⊢
            obtain ⟨hbc1, hbc2⟩ := hbc
            exact Or.inl (by omega)
        · by_cases h2 : b.toNat < c.toNat
          · simp [h1, h2] at hab hbc ⊢
            obtain ⟨hab1, hab2⟩ := hab
            exact Or.inl (by omega)
          · simp [h1, h2] at hab hbc ⊢
            obtain ⟨hab1, hab2⟩ := hab
            obtain ⟨hbc1, hbc2⟩ := hbc
            exact Or.inr ⟨by omega, ih bs cs hab2 hbc2⟩

theorem pyStrLe_total (a b : String) : pyStrLe a b = true ∨ pyStrLe b a = true :=
  lexLe_total a.data b.data

theorem pyStrLe_trans (a b c : String) (h1 : pyStrLe a b = true) (h2 : pyStrLe b c = true) :
    pyStrLe a c = true :=
  lexLe_trans a.data b.data c.data h1 h2

theorem map_fst_zip_sublist {α β : Type} :
    ∀ (l1 : List α) (l2 : List β), ((l1.zip l2).map Prod.fst).Sublist l1 := by
  intro l1
  induction l1 with
  | nil => intro l2; simp
  | cons a l1 ih =>
    intro l2
    cases l2 with
    | nil => simp
    | cons b l2 =>
      simpa using List.Sublist.cons₂ a (ih l2)

theorem zipWith_add_mul_replicate_zero (K : ℚ) :
    ∀ xs : List ℚ, List.zipWith (fun l s => l + s * K) xs (List.replicate xs.length 0) = xs := by
  intro xs
  induction xs with
  | nil => rfl
  | cons x xs ih => simp [List.replicate, ih]

/-! ## Claims -/

/-- C9: for every fitted Krige model, input array x and confidence
interval, Krige.predict equals the first component (the point estimate)
of Krige.predict_proba, and its value does not depend on the interval. -/
theorem C9_predict_is_first_component_of_predict_proba
    (ppf sqrtF : ℚ → ℚ) (m : KrigeModel) (x : List (ℚ × ℚ)) (i1 i2 : ℚ) :
    Krige.predict ppf sqrtF m x i1 = (Krige.predict_proba ppf sqrtF m x i1).1 ∧
    Krige.predict ppf sqrtF m x i1 = Krige.predict ppf sqrtF m x i2 :=
  ⟨rfl, rfl⟩

/-- C10: with no geotiffs in the data directory (an empty glob result),
extract exits the process with status -1, and run_pipeline therefore
stops with that exit code before the compose/gather stage runs: no
ShapeMismatchError, no EmptyDatasetError, no empty dataset. -/
theorem C10_extract_exits_on_empty_glob
    (extractF : String → Option Mat × ExtractSettings) (cs : ComposeSettings) :
    extract [] extractF = Except.error (PipeError.exitCode (-1)) ∧
    run_pipeline_gather [] extractF cs = (Except.error (PipeError.exitCode (-1)), false) :=
  ⟨rfl, rfl⟩

/-- C4 (counterexample): the set of keys the predict command loads from
the bundle is NOT contained in the set of keys export_model stores — the
predict command subscripts "config", which export_model never writes. -/
theorem C4_counterexample_config_key_not_stored :
    ¬ (∀ k ∈ predict_loaded_keys,
        k ∈ (export_model (0 : ℚ) [] ⟨id⟩).map Prod.fst) := by
  intro h
  have := h "config" (by decide)
  simp [export_model] at this

/-- C4 (amended): the bundle written by learningpipeline.export_model
stores the trained model, the image settings and the compose settings
under the keys "model", "image_settings", "compose_settings"; the predict
command of scripts/uncoverml.py loads the keys "model" and "config", of
which "model" is stored with the trained model, while "config" is not a
stored key (its lookup fails). -/
theorem C4_bundle_keys_mismatch {M : Type} (model : M)
    (image_settings : List (String × ExtractSettings)) (cs : ComposeSettings) :
    (export_model model image_settings cs).map Prod.fst =
      ["model", "image_settings", "compose_settings"] ∧
    predict_loaded_keys = ["model", "config"] ∧
    predict_load (export_model model image_settings cs) =
      (some (BundleVal.model model), none) :=
  ⟨rfl, rfl, rfl⟩

/-- C5: constructing a Krige wrapper with a method outside the fixed
registry raises ConfigException at construction time; every method in
the registry constructs successfully; and fit on any successfully
constructed wrapper finds its method in the registry, so it can never
fail with an unknown-method error. -/
theorem C5_krige_method_checked_at_construction (method : String) :
    ((krige_methods.map Prod.fst).contains method = false →
      Krige.init method =
        Except.error "Kirging method must be one of the krige_methods keys") ∧
    ((krige_methods.map Prod.fst).contains method = true →
      Krige.init method = Except.ok ⟨method⟩) ∧
    (∀ k, Krige.init method = Except.ok k →
      ∀ mkBackend x y, (Krige.fit mkBackend k x y).isSome = true) := by
  refine ⟨fun h => ?_, fun h => ?_, ?_⟩
  · unfold Krige.init
    rw [h]
    rfl
  · unfold Krige.init
    rw [h]
    rfl
  · intro k hk mkBackend x y
    by_cases hc : (krige_methods.map Prod.fst).contains method = true
    · have hkm : k = (⟨method⟩ : Krige) := by
        unfold Krige.init at hk
        rw [hc] at hk
        simpa using hk.symm
      subst hkm
      have hmem : method ∈ krige_methods.map Prod.fst := by
        simpa [List.contains, List.elem_iff] using hc
      have hcase : method = "ordinary" ∨ method = "universal" := by
        simpa [krige_methods] using hmem
      rcases hcase with h | h <;> subst h <;>
        simp [Krige.fit, krige_methods, List.lookup]
    · have hfalse : (krige_methods.map Prod.fst).contains method = false := by
        simpa using hc
      unfold Krige.init at hk
      rw [hfalse] at hk
      simp at hk

/-- C5 witness: the unknown method "kmeans" is rejected at construction,
"ordinary" is accepted, and fit on the resulting wrapper succeeds. -/
theorem C5_witness :
    Krige.init "kmeans" =
      Except.error "Kirging method must be one of the krige_methods keys" ∧
    Krige.init "ordinary" = Except.ok ⟨"ordinary"⟩ ∧
    (Krige.fit (fun _ _ _ => ⟨fun xs _ => (xs, xs)⟩) ⟨"ordinary"⟩ [] []).isSome = true :=
  ⟨(C5_krige_method_checked_at_construction "kmeans").1 (by decide),
   (C5_krige_method_checked_at_construction "ordinary").2.1 (by decide),
   (C5_krige_method_checked_at_construction "ordinary").2.2 ⟨"ordinary"⟩
     ((C5_krige_method_checked_at_construction "ordinary").2.1 (by decide))
     (fun _ _ _ => ⟨fun xs _ => (xs, xs)⟩) [] []⟩

/-- C6: predict_proba returns (estimate, variance, lowerBound,
upperBound) with the bounds given by the normal-distribution interval at
the requested confidence level with location the estimate and scale the
square root of the variance; in particular, at confidence level 0.95,
whenever the model reports all-zero variance both bounds equal the
estimate. -/
theorem C6_predict_proba_normal_interval (ppf sqrtF : ℚ → ℚ) (m : KrigeModel)
    (x : List (ℚ × ℚ)) (interval : ℚ) :
    (Krige.predict_proba ppf sqrtF m x interval =
      ((m.execute (x.map Prod.fst) (x.map Prod.snd)).1,
       (m.execute (x.map Prod.fst) (x.map Prod.snd)).2,
       (norm_interval ppf interval (m.execute (x.map Prod.fst) (x.map Prod.snd)).1
          ((m.execute (x.map Prod.fst) (x.map Prod.snd)).2.map sqrtF)).1,
       (norm_interval ppf interval (m.execute (x.map Prod.fst) (x.map Prod.snd)).1
          ((m.execute (x.map Prod.fst) (x.map Prod.snd)).2.map sqrtF)).2)) ∧
    (sqrtF 0 = 0 → interval = 95 / 100 →
      (m.execute (x.map Prod.fst) (x.map Prod.snd)).2 =
        List.replicate (m.execute (x.map Prod.fst) (x.map Prod.snd)).1.length 0 →
      (Krige.predict_proba ppf sqrtF m x interval).2.2.1 =
          (m.execute (x.map Prod.fst) (x.map Prod.snd)).1 ∧
      (Krige.predict_proba ppf sqrtF m x interval).2.2.2 =
          (m.execute (x.map Prod.fst) (x.map Prod.snd)).1) := by
  refine ⟨rfl, fun hs hi hv => ?_⟩
  constructor
  · show (norm_interval ppf interval (m.execute (x.map Prod.fst) (x.map Prod.snd)).1
      ((m.execute (x.map Prod.fst) (x.map Prod.snd)).2.map sqrtF)).1 = _
    rw [hv]
    simp only [norm_interval, List.map_replicate, hs]
    exact zipWith_add_mul_replicate_zero _ _
  · show (norm_interval ppf interval (m.execute (x.map Prod.fst) (x.map Prod.snd)).1
      ((m.execute (x.map Prod.fst) (x.map Prod.snd)).2.map sqrtF)).2 = _
    rw [hv]
    simp only [norm_interval, List.map_replicate, hs]
    exact zipWith_add_mul_replicate_zero _ _

/-- C6 witness: a backend reporting estimate 1 and variance 0 on one
point, queried at confidence level 0.95, yields both bounds equal to the
estimate. -/
theorem C6_witness :
    (Krige.predict_proba id id ⟨fun xs _ => (xs, List.replicate xs.length 0)⟩
        [((1 : ℚ), (2 : ℚ))] (95 / 100)).2.2.1 = [(1 : ℚ)] ∧
    (Krige.predict_proba id id ⟨fun xs _ => (xs, List.replicate xs.length 0)⟩
        [((1 : ℚ), (2 : ℚ))] (95 / 100)).2.2.2 = [(1 : ℚ)] := by
  have h := (C6_predict_proba_normal_interval id id
    ⟨fun xs _ => (xs, List.replicate xs.length 0)⟩ [((1 : ℚ), (2 : ℚ))] (95 / 100)).2
    rfl rfl rfl
  exact ⟨h.1.trans rfl, h.2.trans rfl⟩

/-- C8: in the predict command with S sub-chunk partitions,
render_partition runs exactly once for every index i < S and never for
any other index, the renders occur in strictly increasing index order
(each completes before the next starts, since the trace is sequential),
and the completion report is the final event, occurring exactly once,
after all S renders. -/
theorem C8_predict_renders_each_partition_once_in_order (S : Nat) :
    (∀ i, i < S → (predict_events S).count (PredictEvent.render i) = 1) ∧
    (∀ i, S ≤ i → (predict_events S).count (PredictEvent.render i) = 0) ∧
    (predict_events S).filterMap
        (fun e => match e with
          | PredictEvent.render i => some i
          | PredictEvent.finished => none) = List.range S ∧
    List.Pairwise (fun i j => i < j)
      ((predict_events S).filterMap (fun e => match e with
        | PredictEvent.render i => some i
        | PredictEvent.finished => none)) ∧
    (predict_events S).getLast? = some PredictEvent.finished ∧
    (predict_events S).count PredictEvent.finished = 1 := by
  have hinj : Function.Injective PredictEvent.render := by
    intro a b h
    cases h
    rfl
  have hfm : (predict_events S).filterMap
      (fun e => match e with
        | PredictEvent.render i => some i
        | PredictEvent.finished => none) = List.range S := by
    unfold predict_events
    rw [List.filterMap_append, List.filterMap_map]
    have hcomp : ((fun e => match e with
        | PredictEvent.render i => some i
        | PredictEvent.finished => none) ∘ PredictEvent.render) = some := by
      funext j
      rfl
    rw [hcomp, List.filterMap_some]
    simp
  refine ⟨fun i hi => ?_, fun i hi => ?_, hfm, ?_, ?_, ?_⟩
  · unfold predict_events
    rw [List.count_append, List.count_map_of_injective _ _ hinj]
    rw [List.count_eq_one_of_mem (List.nodup_range S) (List.mem_range.mpr hi)]
    rfl
  · unfold predict_events
    rw [List.count_append, List.count_map_of_injective _ _ hinj]
    rw [List.count_eq_zero.mpr (by simp; omega)]
    rfl
  · rw [hfm]
    exact List.pairwise_lt_range S
  · unfold predict_events
    rw [List.getLast?_append]
    rfl
  · unfold predict_events
    rw [List.count_append]
    have h0 : ((List.range S).map PredictEvent.render).count PredictEvent.finished = 0 := by
      rw [List.count_eq_zero]
      intro hmem
      rcases List.mem_map.mp hmem with ⟨j, _, hj⟩
      cases hj
    rw [h0]
    rfl

/-- C8 witness: with three partitions, partition 2 renders exactly once
and the out-of-range partition 5 never renders. -/
theorem C8_witness :
    (predict_events 3).count (PredictEvent.render 2) = 1 ∧
    (predict_events 3).count (PredictEvent.render 5) = 0 :=
  ⟨(C8_predict_renders_each_partition_once_in_order 3).1 2 (by decide),
   (C8_predict_renders_each_partition_once_in_order 3).2.1 5 (by decide)⟩

/-- C1: in gather_data, a worker whose chunk dict contains any absent
source chunk composes to None and contributes no rows; a worker with
every source present contributes the (composed) column-wise
concatenation of all its source chunks; and the row count of the
gathered global dataset equals the sum over workers of the row counts of
the non-None composed contributions. -/
theorem C1_gather_data_row_partition
    (workers : List (List (String × Option Mat))) (cs : ComposeSettings) :
    (∀ w ∈ workers, (∃ p ∈ w, p.2 = none) → gather_local w cs = none) ∧
    (∀ w ∈ workers, (∀ p ∈ w, p.2 ≠ none) →
      gather_local w cs =
        (compose_features (some (hconcat (w.filterMap Prod.snd))) cs).1) ∧
    (gather_data workers cs).length =
      (((workers.map (fun w => gather_local w cs)).filterMap id).map
        List.length).sum := by
  refine ⟨fun w _ hnone => ?_, fun w _ hall => ?_, ?_⟩
  · obtain ⟨p, hp, hp2⟩ := hnone
    have hmem : true ∈ w.map (fun q => q.2.isNone) :=
      List.mem_map.mpr ⟨p, hp, by simp [hp2]⟩
    have hcont : (w.map (fun q => q.2.isNone)).contains true = true := by
      simpa [List.contains, List.elem_iff] using hmem
    unfold gather_local
    rw [hcont]
    rfl
  · have hne : true ∉ w.map (fun q => q.2.isNone) := by
      intro hmem
      rcases List.mem_map.mp hmem with ⟨q, hq, hq2⟩
      exact hall q hq (Option.isNone_iff_eq_none.mp hq2)
    have hcont : (w.map (fun q => q.2.isNone)).contains true = false := by
      simpa [List.contains, List.elem_iff] using hne
    unfold gather_local
    rw [hcont]
    rfl
  · unfold gather_data
    exact List.length_flatten _

/-- C1 witness: two simulated workers, the second missing one source
chunk: the second composes to None, the first to the composed
concatenation, and the gathered row count is the first worker's rows. -/
theorem C1_witness :
    gather_local [("a.tif", (none : Option Mat)), ("b.tif", some [[5]])] ⟨id⟩ = none ∧
    gather_local [("a.tif", some [[1], [2]]), ("b.tif", some [[3], [4]])] ⟨id⟩ =
      (compose_features (some (hconcat [[[1], [2]], [[3], [4]]])) ⟨id⟩).1 ∧
    (gather_data
        [[("a.tif", some [[1], [2]]), ("b.tif", some [[3], [4]])],
         [("a.tif", (none : Option Mat)), ("b.tif", some [[5]])]] ⟨id⟩).length =
      ((([[("a.tif", some [[1], [2]]), ("b.tif", some [[3], [4]])],
          [("a.tif", (none : Option Mat)), ("b.tif", some [[5]])]].map
            (fun w => gather_local w ⟨id⟩)).filterMap id).map List.length).sum := by
  refine ⟨?_, ?_, ?_⟩
  · exact (C1_gather_data_row_partition
      [[("a.tif", (none : Option Mat)), ("b.tif", some [[5]])]] ⟨id⟩).1
      _ (by simp) ⟨("a.tif", none), by simp, rfl⟩
  · exact (C1_gather_data_row_partition
      [[("a.tif", some [[1], [2]]), ("b.tif", some [[3], [4]])]] ⟨id⟩).2.1
      _ (by simp) (by intro p hp; fin_cases hp <;> simp)
  · exact (C1_gather_data_row_partition
      [[("a.tif", some [[1], [2]]), ("b.tif", some [[3], [4]])],
       [("a.tif", (none : Option Mat)), ("b.tif", some [[5]])]] ⟨id⟩).2.2

/-- C7: extract returns the per-source chunks sorted in ascending
lexicographic order of source name (keyed by the tif basenames), and
run_pipeline iterates algorithms in ascending sorted order of algorithm
name; both orders are functions of the inputs alone, so two workers with
equal inputs traverse sources and algorithms identically. -/
theorem C7_sorted_iteration_order (tifs : List String)
    (extractF : String → Option Mat × ExtractSettings)
    (algdict_keys : List String) :
    (∀ chunks settings, extract tifs extractF = Except.ok (chunks, settings) →
      List.Sorted (fun a b : String => pyStrLe a b = true) (chunks.map Prod.fst) ∧
      (chunks.map Prod.fst).Perm (tifs.map basename)) ∧
    List.Sorted (fun a b : String => pyStrLe a b = true)
      (run_pipeline_algorithm_order algdict_keys) ∧
    (run_pipeline_algorithm_order algdict_keys).Perm algdict_keys ∧
    (∀ tifs2 extractF2 algdict_keys2, tifs = tifs2 → extractF = extractF2 →
      algdict_keys = algdict_keys2 →
      extract tifs extractF = extract tifs2 extractF2 ∧
      run_pipeline_algorithm_order algdict_keys =
        run_pipeline_algorithm_order algdict_keys2) := by
  haveI hts : IsTotal String (fun a b => pyStrLe a b = true) := ⟨pyStrLe_total⟩
  haveI htr : IsTrans String (fun a b => pyStrLe a b = true) := ⟨pyStrLe_trans⟩
  haveI hpt : IsTotal (String × Option Mat) (fun a b => pyStrLe a.1 b.1 = true) :=
    ⟨fun a b => pyStrLe_total a.1 b.1⟩
  haveI hpr : IsTrans (String × Option Mat) (fun a b => pyStrLe a.1 b.1 = true) :=
    ⟨fun a b c => pyStrLe_trans a.1 b.1 c.1⟩
  refine ⟨?_, ?_, ?_, ?_⟩
  · intro chunks settings h
    unfold extract at h
    by_cases h0 : tifs.length = 0
    · rw [if_pos h0] at h
      exact absurd h (by simp)
    · rw [if_neg h0] at h
      have hchunks : chunks =
          List.insertionSort (fun a b : String × Option Mat => pyStrLe a.1 b.1 = true)
            ((tifs.map (fun t => (basename t, extractF t))).map (fun p => (p.1, p.2.1))) := by
        have := (Except.ok.inj h)
        exact (congrArg Prod.fst this).symm
      subst hchunks
      constructor
      · exact List.Pairwise.map Prod.fst (fun a b hab => hab)
          (List.sorted_insertionSort _ _)
      · have hperm := (List.perm_insertionSort
          (fun a b : String × Option Mat => pyStrLe a.1 b.1 = true)
          ((tifs.map (fun t => (basename t, extractF t))).map (fun p => (p.1, p.2.1)))).map Prod.fst
        refine hperm.trans ?_
        rw [List.map_map, List.map_map]
        exact List.Perm.refl _
  · exact List.sorted_insertionSort _ _
  · exact List.perm_insertionSort _ _
  · intro tifs2 extractF2 algdict_keys2 h1 h2 h3
    subst h1
    subst h2
    subst h3
    exact ⟨rfl, rfl⟩

/-- C7 witness: two tifs given in reverse order come out of extract
sorted ascending by basename. -/
theorem C7_witness :
    List.Sorted (fun a b : String => pyStrLe a b = true)
      ((([("a.tif", some [[(1 : ℚ)]]), ("b.tif", some [[(1 : ℚ)]])] :
        List (String × Option Mat)).map Prod.fst)) :=
  ((C7_sorted_iteration_order ["b.tif", "a.tif"]
      (fun _ => (some [[(1 : ℚ)]], ⟨false, 0⟩)) []).1
    [("a.tif", some [[(1 : ℚ)]]), ("b.tif", some [[(1 : ℚ)]])]
    [("b.tif", ⟨false, 0⟩), ("a.tif", ⟨false, 0⟩)] (by rfl)).1

theorem dictInsert_fresh {β : Type} (d : List (String × β)) (k : String) (v : β)
    (h : d.any (fun p => p.1 == k) = false) : dictInsert d k v = d ++ [(k, v)] := by
  simp only [dictInsert, h]
  rfl

theorem export_feature_ranks_fold (features : List String) :
    ∀ (entries : List (String × List ℚ))
      (acc1 : List (String × List ℚ)) (acc2 : List (String × List String)),
      (entries.map Prod.fst).Nodup →
      (∀ k ∈ entries.map Prod.fst, acc1.any (fun p => p.1 == k) = false) →
      (∀ k ∈ entries.map Prod.fst, acc2.any (fun p => p.1 == k) = false) →
      entries.foldl (fun acc p =>
        let sorted_pairs := sortedScorePairs features p.2
        (dictInsert acc.1 p.1 (sorted_pairs.map Prod.snd),
         dictInsert acc.2 p.1 (sorted_pairs.map Prod.fst))) (acc1, acc2) =
      (acc1 ++ entries.map
          (fun p => (p.1, (sortedScorePairs features p.2).map Prod.snd)),
       acc2 ++ entries.map
          (fun p => (p.1, (sortedScorePairs features p.2).map Prod.fst))) := by
  intro entries
  induction entries with
  | nil => intro acc1 acc2 _ _ _; simp
  | cons e rest ih =>
    intro acc1 acc2 hnodup h1 h2
    have he1 : acc1.any (fun p => p.1 == e.1) = false := h1 e.1 (by simp)
    have he2 : acc2.any (fun p => p.1 == e.1) = false := h2 e.1 (by simp)
    have hkey : e.1 ∉ rest.map Prod.fst := by
      have := hnodup
      simp only [List.map_cons, List.nodup_cons] at this
      exact this.1
    have hrest : (rest.map Prod.fst).Nodup := by
      have := hnodup
      simp only [List.map_cons, List.nodup_cons] at this
      exact this.2
    show rest.foldl _
      (dictInsert acc1 e.1 ((sortedScorePairs features e.2).map Prod.snd),
       dictInsert acc2 e.1 ((sortedScorePairs features e.2).map Prod.fst)) = _
    rw [dictInsert_fresh acc1 e.1 _ he1, dictInsert_fresh acc2 e.1 _ he2]
    rw [ih (acc1 ++ [(e.1, (sortedScorePairs features e.2).map Prod.snd)])
          (acc2 ++ [(e.1, (sortedScorePairs features e.2).map Prod.fst)])
          hrest ?_ ?_]
    · simp
    · intro k hk
      rw [List.any_append]
      have hk1 : acc1.any (fun p => p.1 == k) = false := h1 k (by simp [hk])
      have hk2 : (e.1 == k) = false := by
        rw [beq_eq_false_iff_ne]
        intro he
        exact hkey (he ▸ hk)
      simp [hk1, hk2]
    · intro k hk
      rw [List.any_append]
      have hk1 : acc2.any (fun p => p.1 == k) = false := h2 k (by simp [hk])
      have hk2 : (e.1 == k) = false := by
        rw [beq_eq_false_iff_ne]
        intro he
        exact hkey (he ▸ hk)
      simp [hk1, hk2]

/-- C3: for every metric, export_feature_ranks stores the (source name,
score) pairs sorted ascending by score, and applies exactly the same
ascending sort to every metric — the stored entry is a function of the
features and that metric's scores alone, with no reversal for
lower-is-better metrics. -/
theorem C3_export_feature_ranks_ascending_for_every_metric
    (measures features : List String) (scores : List (List ℚ)) :
    (∀ measure_scores : List ℚ,
      List.Sorted (fun a b : String × ℚ => a.2 ≤ b.2)
        (sortedScorePairs features measure_scores) ∧
      (sortedScorePairs features measure_scores).Perm
        (features.zip measure_scores)) ∧
    (measures.Nodup →
      export_feature_ranks measures features scores =
        ((measures.zip scores).map
          (fun p => (p.1, (sortedScorePairs features p.2).map Prod.snd)),
         (measures.zip scores).map
          (fun p => (p.1, (sortedScorePairs features p.2).map Prod.fst)))) := by
  constructor
  · intro ms
    haveI : IsTotal (String × ℚ) (fun a b => a.2 ≤ b.2) :=
      ⟨fun a b => le_total a.2 b.2⟩
    haveI : IsTrans (String × ℚ) (fun a b => a.2 ≤ b.2) :=
      ⟨fun a b c hab hbc => le_trans hab hbc⟩
    exact ⟨List.sorted_insertionSort _ _, List.perm_insertionSort _ _⟩
  · intro hnodup
    have hzip : ((measures.zip scores).map Prod.fst).Nodup :=
      List.Nodup.sublist (map_fst_zip_sublist measures scores) hnodup
    unfold export_feature_ranks
    rw [export_feature_ranks_fold features (measures.zip scores) [] [] hzip
      (by intro k _; rfl) (by intro k _; rfl)]
    simp

/-- C3 witness: two metrics over sources a and b; both metric rows come
out sorted ascending by score, each by the same ascending comparison. -/
theorem C3_witness :
    export_feature_ranks ["r2", "mse"] ["a", "b"] [[3, 1], [2, 5]] =
      ([("r2", [1, 3]), ("mse", [2, 5])],
       [("r2", ["b", "a"]), ("mse", ["a", "b"])]) := by
  have h := (C3_export_feature_ranks_ascending_for_every_metric
    ["r2", "mse"] ["a", "b"] [[3, 1], [2, 5]]).2 (by decide)
  exact h.trans (by decide)

/-- C2 (code defect): rank_features keys each result under
`name.rstrip(".tif")`, and Python's rstrip removes trailing characters
from the set containing a period, t, i and f rather than the ".tif"
suffix.  The two distinct sources "a.tif" and "att.tif" both strip to
the key "a", so the second cross-validation result overwrites the first:
two feature sources yield a single score entry (under a name that is not
any source's name), contradicting one-entry-per-source leave-one-out
ranking. -/
theorem C2_rank_features_rstrip_key_collision :
    pyRstrip "att.tif" ".tif" = "a" ∧
    pyRstrip "a.tif" ".tif" = "a" ∧
    ([(("a.tif" : String), some [[(1 : ℚ)]]), ("att.tif", some [[2]])] :
      List (String × Option Mat)).length = 2 ∧
    (rank_features (fun _ => ⟨[("r2", 0)]⟩)
        [("a.tif", some [[1]]), ("att.tif", some [[2]])] ⟨id⟩).2.1 = ["a"] ∧
    (rank_features (fun _ => ⟨[("r2", 0)]⟩)
        [("a.tif", some [[1]]), ("att.tif", some [[2]])] ⟨id⟩).2.1.length = 1 := by
  refine ⟨by decide, by decide, rfl, by decide, by decide⟩
